import Mathlib

/-!
Verification development for the golang-set repository (package mapset).

The provided source is the thread-safe wrapper threadsafe.go: a struct holding
an unsynchronized engine (threadUnsafeSet) plus a sync.RWMutex, where every
method acquires a lock and delegates to the engine. The engine itself
(threadunsafe.go) is not among the provided sources, so its operations are
modelled from the specification contract for the unsynchronized collaborator.

Shallow embedding choices:
- The engine stores its elements as a Go map from element to struct{}; we
  model it as a duplicate-free list of elements (the map key set, in the
  iteration order the program happens to see). Mutation is modelled by
  explicit state passing: a Go method that mutates the receiver becomes a
  Lean function returning the new receiver value.
- The Set interface value is a sum of the two concrete variants. A Go type
  assertion other.(*threadSafeSet) that panics on the wrong dynamic type is
  modelled as an Option result, none standing for the panic.
- The sync.RWMutex carries no element data; the lock each method acquires on
  its receiver is recorded separately in the table receiverLock below,
  transcribed line by line from threadsafe.go.
- JSON is treated as a pass-through transport of the element collection (the
  spec excludes encoding details): MarshalJSON produces the element list and
  UnmarshalJSON consumes one.
-/

namespace GolangSet

/-- Modelled from the spec: threadunsafe.go is not among the provided sources.
The unsynchronized engine holds elements in a mapping from element to a
presence marker; we model the key set as a duplicate-free list. -/
structure threadUnsafeSet (α : Type) where
  elems : List α
deriving DecidableEq

/-- Modelled from the spec: the engine constructor returns an empty set. -/
def newThreadUnsafeSet {α : Type} : threadUnsafeSet α := ⟨[]⟩

/-- Modelled from the spec: membership of one element in the engine map. -/
def threadUnsafeSet.containsElem {α : Type} [DecidableEq α]
    (s : threadUnsafeSet α) (x : α) : Bool :=
  decide (x ∈ s.elems)

/-- Modelled from the spec: Contains(elems...) is true iff every given element
is present; vacuously true for zero elements. -/
def threadUnsafeSet.Contains {α : Type} [DecidableEq α]
    (s : threadUnsafeSet α) (xs : List α) : Bool :=
  xs.all s.containsElem

/-- Modelled from the spec: Add inserts the element and returns true exactly
when it was not already present. -/
def threadUnsafeSet.Add {α : Type} [DecidableEq α]
    (s : threadUnsafeSet α) (x : α) : Bool × threadUnsafeSet α :=
  if s.containsElem x then (false, s) else (true, ⟨s.elems ++ [x]⟩)

/-- Modelled from the spec: Remove deletes the element, a no-op if absent. -/
def threadUnsafeSet.Remove {α : Type} [DecidableEq α]
    (s : threadUnsafeSet α) (x : α) : threadUnsafeSet α :=
  ⟨s.elems.filter (fun y => decide (y ≠ x))⟩

/-- Modelled from the spec: Cardinality counts the distinct elements. -/
def threadUnsafeSet.Cardinality {α : Type} (s : threadUnsafeSet α) : Nat :=
  s.elems.length

/-- Modelled from the spec: IsSubset is true iff every element of the receiver
is in the other set. -/
def threadUnsafeSet.IsSubset {α : Type} [DecidableEq α]
    (s o : threadUnsafeSet α) : Bool :=
  s.elems.all o.containsElem

/-- Modelled from the spec: IsProperSubset is true iff IsSubset holds and the
cardinalities differ. -/
def threadUnsafeSet.IsProperSubset {α : Type} [DecidableEq α]
    (s o : threadUnsafeSet α) : Bool :=
  s.IsSubset o && decide (s.Cardinality ≠ o.Cardinality)

/-- Modelled from the spec: Union returns a new engine instance holding every
element of either operand, mutating neither. -/
def threadUnsafeSet.Union {α : Type} [DecidableEq α]
    (s o : threadUnsafeSet α) : threadUnsafeSet α :=
  ⟨s.elems ++ o.elems.filter (fun y => decide (y ∉ s.elems))⟩

/-- Modelled from the spec: Intersect returns a new engine instance holding
the elements present in both operands. -/
def threadUnsafeSet.Intersect {α : Type} [DecidableEq α]
    (s o : threadUnsafeSet α) : threadUnsafeSet α :=
  ⟨s.elems.filter o.containsElem⟩

/-- Modelled from the spec: Difference returns a new engine instance holding
the receiver elements absent from the operand. -/
def threadUnsafeSet.Difference {α : Type} [DecidableEq α]
    (s o : threadUnsafeSet α) : threadUnsafeSet α :=
  ⟨s.elems.filter (fun y => !o.containsElem y)⟩

/-- Modelled from the spec: SymmetricDifference is the union of the two
one-sided differences, as a new engine instance. -/
def threadUnsafeSet.SymmetricDifference {α : Type} [DecidableEq α]
    (s o : threadUnsafeSet α) : threadUnsafeSet α :=
  ⟨(s.Difference o).elems ++ (o.Difference s).elems⟩

/-- Modelled from the spec: Equal is true iff same cardinality and same
elements. -/
def threadUnsafeSet.Equal {α : Type} [DecidableEq α]
    (s o : threadUnsafeSet α) : Bool :=
  decide (s.Cardinality = o.Cardinality) && s.IsSubset o

/-- Modelled from the spec: Clone returns a new engine instance with the same
elements. -/
def threadUnsafeSet.Clone {α : Type} (s : threadUnsafeSet α) : threadUnsafeSet α :=
  ⟨s.elems⟩

/-- Modelled from the spec: Pop removes and returns an arbitrary element (the
first the map iteration yields in our model), or a none indicator if empty. -/
def threadUnsafeSet.Pop {α : Type} (s : threadUnsafeSet α) : Option α × threadUnsafeSet α :=
  match s.elems with
  | [] => (none, s)
  | x :: rest => (some x, ⟨rest⟩)

/-- Modelled from the spec: PowerSet returns a new engine set whose elements
are engine sets, one for every subset of the receiver. -/
def threadUnsafeSet.PowerSet {α : Type} (s : threadUnsafeSet α) :
    threadUnsafeSet (threadUnsafeSet α) :=
  ⟨s.elems.sublists.map (fun l => ⟨l⟩)⟩

/-- Modelled from the spec: CartesianProduct returns a new engine set of the
ordered pairs (a, b) with a from the receiver and b from the operand. -/
def threadUnsafeSet.CartesianProduct {α β : Type}
    (s : threadUnsafeSet α) (o : threadUnsafeSet β) : threadUnsafeSet (α × β) :=
  ⟨s.elems.flatMap (fun a => o.elems.map (fun b => (a, b)))⟩

/-- Modelled from the spec: ToSlice materializes the elements eagerly in
arbitrary order. -/
def threadUnsafeSet.ToSlice {α : Type} (s : threadUnsafeSet α) : List α :=
  s.elems

/-- Modelled from the spec: MarshalJSON serializes the element collection as a
JSON array; encoding details are excluded, so the model emits the element
list itself. -/
def threadUnsafeSet.MarshalJSON {α : Type} (s : threadUnsafeSet α) : List α :=
  s.elems

/-- Modelled from the spec: UnmarshalJSON accepts a JSON array and replaces
the receiver contents with its elements, duplicates collapsing per set
semantics. -/
def threadUnsafeSet.UnmarshalJSON {α : Type} [DecidableEq α]
    (_s : threadUnsafeSet α) (p : List α) : threadUnsafeSet α :=
  ⟨p.dedup⟩

/-- Embeds the struct threadSafeSet of threadsafe.go: an engine instance S
plus a sync.RWMutex l. The mutex holds no element data, so only S appears
here; the lock each method takes is tabulated in receiverLock. -/
structure threadSafeSet (α : Type) where
  S : threadUnsafeSet α
deriving DecidableEq

/-- Embeds the Set interface value: its dynamic type is one of the two
concrete variants, locked (*threadSafeSet) or unlocked (*threadUnsafeSet). -/
inductive GoSet (α : Type) where
  | locked : threadSafeSet α → GoSet α
  | unlocked : threadUnsafeSet α → GoSet α
deriving DecidableEq

/-- Embeds newThreadSafeSet of threadsafe.go: a wrapper around a fresh empty
engine. -/
def newThreadSafeSet {α : Type} : threadSafeSet α := ⟨newThreadUnsafeSet⟩

/-- Embeds Add of threadsafe.go (lines 39-44): take the write lock, delegate
to the engine Add, return its Bool; the mutated receiver is passed back
explicitly. -/
def threadSafeSet.Add {α : Type} [DecidableEq α]
    (set : threadSafeSet α) (i : α) : Bool × threadSafeSet α :=
  let r := set.S.Add i
  (r.1, ⟨r.2⟩)

/-- Embeds Contains of threadsafe.go (lines 46-51): take the read lock and
delegate to the engine. -/
def threadSafeSet.Contains {α : Type} [DecidableEq α]
    (set : threadSafeSet α) (i : List α) : Bool :=
  set.S.Contains i

/-- Embeds IsSubset of threadsafe.go (lines 53-63): the operand is type
asserted to *threadSafeSet (none models the panic on any other variant),
then both read locks are taken and the engine does the check. -/
def threadSafeSet.IsSubset {α : Type} [DecidableEq α]
    (set : threadSafeSet α) (other : GoSet α) : Option Bool :=
  match other with
  | .locked o => some (set.S.IsSubset o.S)
  | .unlocked _ => none

/-- Embeds IsProperSubset of threadsafe.go (lines 65-74): same type assertion
and locking, delegating to the engine IsProperSubset. -/
def threadSafeSet.IsProperSubset {α : Type} [DecidableEq α]
    (set : threadSafeSet α) (other : GoSet α) : Option Bool :=
  match other with
  | .locked o => some (set.S.IsProperSubset o.S)
  | .unlocked _ => none

/-- Embeds the interface dispatch of IsSubset: the receiver Set value picks
the implementation of its dynamic variant. The unlocked branch is Modelled
from the spec (the engine also type asserts its operand to its own kind). -/
def GoSet.IsSubset {α : Type} [DecidableEq α] : GoSet α → GoSet α → Option Bool
  | .locked s, o => s.IsSubset o
  | .unlocked s, .unlocked o => some (s.IsSubset o)
  | .unlocked _, .locked _ => none

/-- Embeds the interface dispatch of IsProperSubset, as for GoSet.IsSubset. -/
def GoSet.IsProperSubset {α : Type} [DecidableEq α] : GoSet α → GoSet α → Option Bool
  | .locked s, o => s.IsProperSubset o
  | .unlocked s, .unlocked o => some (s.IsProperSubset o)
  | .unlocked _, .locked _ => none

/-- Embeds IsSuperset of threadsafe.go (lines 76-78): defined as
other.IsSubset(set), pure delegation with roles reversed. -/
def threadSafeSet.IsSuperset {α : Type} [DecidableEq α]
    (set : threadSafeSet α) (other : GoSet α) : Option Bool :=
  other.IsSubset (.locked set)

/-- Embeds IsProperSuperset of threadsafe.go (lines 80-82): defined as
other.IsProperSubset(set). -/
def threadSafeSet.IsProperSuperset {α : Type} [DecidableEq α]
    (set : threadSafeSet α) (other : GoSet α) : Option Bool :=
  other.IsProperSubset (.locked set)

/-- Embeds Union of threadsafe.go (lines 84-95): type assert the operand,
take both read locks, build ret as a brand-new wrapper of the engine union.
The Go method never assigns to set.S or o.s, so the final states of receiver
and operand are returned unchanged alongside ret. -/
def threadSafeSet.Union {α : Type} [DecidableEq α]
    (set : threadSafeSet α) (other : GoSet α) :
    Option (GoSet α × threadSafeSet α × threadSafeSet α) :=
  match other with
  | .locked o =>
      let ret : GoSet α := .locked ⟨set.S.Union o.S⟩
      some (ret, set, o)
  | .unlocked _ => none

/-- Embeds Intersect of threadsafe.go (lines 97-108), with the same
result-and-final-states shape as Union. -/
def threadSafeSet.Intersect {α : Type} [DecidableEq α]
    (set : threadSafeSet α) (other : GoSet α) :
    Option (GoSet α × threadSafeSet α × threadSafeSet α) :=
  match other with
  | .locked o =>
      let ret : GoSet α := .locked ⟨set.S.Intersect o.S⟩
      some (ret, set, o)
  | .unlocked _ => none

/-- Embeds Difference of threadsafe.go (lines 110-121). -/
def threadSafeSet.Difference {α : Type} [DecidableEq α]
    (set : threadSafeSet α) (other : GoSet α) :
    Option (GoSet α × threadSafeSet α × threadSafeSet α) :=
  match other with
  | .locked o =>
      let ret : GoSet α := .locked ⟨set.S.Difference o.S⟩
      some (ret, set, o)
  | .unlocked _ => none

/-- Embeds SymmetricDifference of threadsafe.go (lines 123-134). -/
def threadSafeSet.SymmetricDifference {α : Type} [DecidableEq α]
    (set : threadSafeSet α) (other : GoSet α) :
    Option (GoSet α × threadSafeSet α × threadSafeSet α) :=
  match other with
  | .locked o =>
      let ret : GoSet α := .locked ⟨set.S.SymmetricDifference o.S⟩
      some (ret, set, o)
  | .unlocked _ => none

/-- Embeds CartesianProduct of threadsafe.go (lines 246-257): the new set
holds ordered pairs. -/
def threadSafeSet.CartesianProduct {α : Type} [DecidableEq α]
    (set : threadSafeSet α) (other : GoSet α) :
    Option (GoSet (α × α) × threadSafeSet α × threadSafeSet α) :=
  match other with
  | .locked o =>
      let ret : GoSet (α × α) := .locked ⟨set.S.CartesianProduct o.S⟩
      some (ret, set, o)
  | .unlocked _ => none

/-- Embeds Equal of threadsafe.go (lines 199-209). -/
def threadSafeSet.Equal {α : Type} [DecidableEq α]
    (set : threadSafeSet α) (other : GoSet α) : Option Bool :=
  match other with
  | .locked o => some (set.S.Equal o.S)
  | .unlocked _ => none

/-- Embeds Clear of threadsafe.go (lines 136-140): the engine is replaced by
a fresh empty one. -/
def threadSafeSet.Clear {α : Type} (_set : threadSafeSet α) : threadSafeSet α :=
  ⟨newThreadUnsafeSet⟩

/-- Embeds Remove of threadsafe.go (lines 142-146): delete(set.S, i) under
the write lock. -/
def threadSafeSet.Remove {α : Type} [DecidableEq α]
    (set : threadSafeSet α) (i : α) : threadSafeSet α :=
  ⟨set.S.Remove i⟩

/-- Embeds Cardinality of threadsafe.go (lines 148-152): len(set.S) under the
read lock. -/
def threadSafeSet.Cardinality {α : Type} (set : threadSafeSet α) : Nat :=
  set.S.Cardinality

/-- Embeds Clone of threadsafe.go (lines 211-218): a brand-new wrapper of the
engine clone, returned as a Set interface value. -/
def threadSafeSet.Clone {α : Type} (set : threadSafeSet α) : GoSet α :=
  .locked ⟨set.S.Clone⟩

/-- Embeds Pop of threadsafe.go (lines 240-244): delegate to the engine Pop
under the write lock. -/
def threadSafeSet.Pop {α : Type} (set : threadSafeSet α) : Option α × threadSafeSet α :=
  let r := set.S.Pop
  (r.1, ⟨r.2⟩)

/-- Embeds PowerSet of threadsafe.go (lines 227-238): compute the engine
power set, then Add each subset, wrapped as a locked set, into a fresh
locked result set. -/
def threadSafeSet.PowerSet {α : Type} [DecidableEq α]
    (set : threadSafeSet α) : GoSet (GoSet α) :=
  let ups := set.S.PowerSet
  let ret : threadSafeSet (GoSet α) :=
    ups.elems.foldl (fun acc u => (acc.Add (GoSet.locked ⟨u⟩)).2) ⟨newThreadUnsafeSet⟩
  .locked ret

/-- Embeds ToSlice of threadsafe.go (lines 259-267): append every element to
a fresh slice under the read lock. -/
def threadSafeSet.ToSlice {α : Type} (set : threadSafeSet α) : List α :=
  set.S.elems

/-- Embeds MarshalJSON of threadsafe.go (lines 269-275): delegate under the
read lock. -/
def threadSafeSet.MarshalJSON {α : Type} (set : threadSafeSet α) : List α :=
  set.S.MarshalJSON

/-- Embeds UnmarshalJSON of threadsafe.go (lines 277-283): delegate to the
engine UnmarshalJSON; note the source takes only the read lock here. -/
def threadSafeSet.UnmarshalJSON {α : Type} [DecidableEq α]
    (set : threadSafeSet α) (p : List α) : threadSafeSet α :=
  ⟨set.S.UnmarshalJSON p⟩

/-- The two lock modes of a sync.RWMutex. -/
inductive LockKind where
  | read : LockKind
  | write : LockKind
deriving DecidableEq

/-- The public methods of the thread-safe wrapper that acquire the receiver
lock themselves (IsSuperset and IsProperSuperset acquire none and are
omitted). -/
inductive TSOp where
  | add : TSOp
  | remove : TSOp
  | clear : TSOp
  | pop : TSOp
  | unmarshalJSON : TSOp
  | contains : TSOp
  | cardinality : TSOp
  | isSubset : TSOp
  | isProperSubset : TSOp
  | union : TSOp
  | intersect : TSOp
  | difference : TSOp
  | symmetricDifference : TSOp
  | equal : TSOp
  | cartesianProduct : TSOp
  | clone : TSOp
  | powerSet : TSOp
  | toSlice : TSOp
  | marshalJSON : TSOp
deriving DecidableEq

/-- The lock each method acquires on the receiver set.l, transcribed from
threadsafe.go: Lock() is the write lock (Add line 40, Remove line 143, Clear
line 137, Pop line 241), RLock() is the read lock everywhere else, including
UnmarshalJSON at line 278. -/
def receiverLock : TSOp → LockKind
  | .add => .write
  | .remove => .write
  | .clear => .write
  | .pop => .write
  | .unmarshalJSON => .read
  | .contains => .read
  | .cardinality => .read
  | .isSubset => .read
  | .isProperSubset => .read
  | .union => .read
  | .intersect => .read
  | .difference => .read
  | .symmetricDifference => .read
  | .equal => .read
  | .cartesianProduct => .read
  | .clone => .read
  | .powerSet => .read
  | .toSlice => .read
  | .marshalJSON => .read

/-- Whether the method mutates the receiver state, read off from the
embedding above: exactly Add, Remove, Clear, Pop and UnmarshalJSON change
set.S. -/
def mutatesReceiver : TSOp → Bool
  | .add => true
  | .remove => true
  | .clear => true
  | .pop => true
  | .unmarshalJSON => true
  | _ => false

/-- Whether a Set interface value carries the locked (thread-safe) dynamic
variant. -/
def GoSet.isLockedVariant {β : Type} : GoSet β → Bool
  | .locked _ => true
  | .unlocked _ => false

theorem containsElem_iff {α : Type} [DecidableEq α] (s : threadUnsafeSet α) (x : α) :
    s.containsElem x = true ↔ x ∈ s.elems := by
  simp [threadUnsafeSet.containsElem]

theorem contains_single {α : Type} [DecidableEq α] (s : threadSafeSet α) (x : α) :
    s.Contains [x] = s.S.containsElem x := by
  simp [threadSafeSet.Contains, threadUnsafeSet.Contains]

theorem isSubset_iff {α : Type} [DecidableEq α] (s o : threadUnsafeSet α) :
    s.IsSubset o = true ↔ ∀ x ∈ s.elems, x ∈ o.elems := by
  simp [threadUnsafeSet.IsSubset, List.all_eq_true, threadUnsafeSet.containsElem]

theorem equal_self {α : Type} [DecidableEq α] (s : threadUnsafeSet α) :
    s.Equal s = true := by
  simp [threadUnsafeSet.Equal, isSubset_iff]

theorem equal_true_of_mem_iff {α : Type} [DecidableEq α] {s o : threadUnsafeSet α}
    (hs : s.elems.Nodup) (ho : o.elems.Nodup)
    (h : ∀ x, x ∈ s.elems ↔ x ∈ o.elems) : s.Equal o = true := by
  have hperm : s.elems.Perm o.elems := (List.perm_ext_iff_of_nodup hs ho).mpr h
  simp [threadUnsafeSet.Equal, threadUnsafeSet.Cardinality, hperm.length_eq,
    isSubset_iff]
  intro x hx
  exact (h x).mp hx

theorem add_elems_of_fresh {α : Type} [DecidableEq α] (s : threadSafeSet α) {x : α}
    (hx : x ∉ s.S.elems) : ((s.Add x).2).S.elems = s.S.elems ++ [x] := by
  simp [threadSafeSet.Add, threadUnsafeSet.Add, threadUnsafeSet.containsElem, hx]

theorem foldl_add_elems {β : Type} [DecidableEq β] (l : List β) :
    ∀ s : threadSafeSet β, (∀ x ∈ l, x ∉ s.S.elems) → l.Nodup →
      (l.foldl (fun acc x => (acc.Add x).2) s).S.elems = s.S.elems ++ l := by
  induction l with
  | nil => intro s _ _; simp
  | cons x rest ih =>
      intro s hfresh hnd
      have hx : x ∉ s.S.elems := hfresh x (by simp)
      have hrest : ∀ y ∈ rest, y ∉ ((s.Add x).2).S.elems := by
        intro y hy
        rw [add_elems_of_fresh s hx]
        simp only [List.mem_append, List.mem_singleton]
        rintro (hmem | hmem)
        · exact hfresh y (by simp [hy]) hmem
        · exact (List.nodup_cons.mp hnd).1 (hmem ▸ hy)
      rw [List.foldl_cons, ih ((s.Add x).2) hrest (List.nodup_cons.mp hnd).2,
        add_elems_of_fresh s hx, List.append_assoc]
      rfl

theorem powerSet_repr {α : Type} [DecidableEq α] (a : threadSafeSet α)
    (h : a.S.elems.Nodup) :
    ∃ P : threadSafeSet (GoSet α), a.PowerSet = GoSet.locked P ∧
      P.S.elems = a.S.elems.sublists.map (fun l => GoSet.locked ⟨⟨l⟩⟩) := by
  refine ⟨_, rfl, ?_⟩
  show ((a.S.PowerSet.elems.foldl
      (fun (acc : threadSafeSet (GoSet α)) (u : threadUnsafeSet α) =>
        (acc.Add (GoSet.locked ⟨u⟩)).2) ⟨newThreadUnsafeSet⟩)).S.elems = _
  have hmk : Function.Injective (fun u : threadUnsafeSet α => GoSet.locked ⟨u⟩) := by
    intro u v huv
    simpa using huv
  have hmk2 : Function.Injective (fun l : List α => (⟨l⟩ : threadUnsafeSet α)) := by
    intro u v huv
    simpa using huv
  have hnd : (a.S.PowerSet.elems.map (fun u => GoSet.locked ⟨u⟩)).Nodup := by
    refine List.Nodup.map hmk ?_
    show (a.S.elems.sublists.map _).Nodup
    exact List.Nodup.map hmk2 (List.nodup_sublists.mpr h)
  have hfold := foldl_add_elems (a.S.PowerSet.elems.map (fun u => GoSet.locked ⟨u⟩))
    (⟨newThreadUnsafeSet⟩ : threadSafeSet (GoSet α)) (by simp [newThreadUnsafeSet]) hnd
  rw [List.foldl_map] at hfold
  rw [hfold]
  show (a.S.elems.sublists.map _).map _ = _
  simp [newThreadUnsafeSet, List.map_map, Function.comp]

/-- C1: the claim states that every mutating operation of the thread-safe
set, Add, Remove, Clear, Pop and UnmarshalJSON, acquires the exclusive
write lock. The four former do, but UnmarshalJSON acquires only the shared
read lock (threadsafe.go line 278) although it mutates the receiver, as the
last conjunct exhibits on a concrete state. -/
theorem C1_mutating_ops_lock_kinds :
    receiverLock TSOp.add = LockKind.write ∧
    receiverLock TSOp.remove = LockKind.write ∧
    receiverLock TSOp.clear = LockKind.write ∧
    receiverLock TSOp.pop = LockKind.write ∧
    mutatesReceiver TSOp.unmarshalJSON = true ∧
    receiverLock TSOp.unmarshalJSON = LockKind.read ∧
    threadSafeSet.UnmarshalJSON (newThreadSafeSet : threadSafeSet Nat) [0] ≠
      newThreadSafeSet := by
  refine ⟨rfl, rfl, rfl, rfl, rfl, rfl, ?_⟩
  decide

/-- C2: every binary operation of the thread-safe set, given an operand of
the other (unlocked) concurrency variant, fails the type assertion and
returns no normal result (modelled as none). -/
theorem C2_type_mismatch_fails {α : Type} [DecidableEq α]
    (s : threadSafeSet α) (u : threadUnsafeSet α) :
    s.IsSubset (GoSet.unlocked u) = none ∧
    s.IsProperSubset (GoSet.unlocked u) = none ∧
    s.Union (GoSet.unlocked u) = none ∧
    s.Intersect (GoSet.unlocked u) = none ∧
    s.Difference (GoSet.unlocked u) = none ∧
    s.SymmetricDifference (GoSet.unlocked u) = none ∧
    s.Equal (GoSet.unlocked u) = none ∧
    s.CartesianProduct (GoSet.unlocked u) = none :=
  ⟨rfl, rfl, rfl, rfl, rfl, rfl, rfl, rfl⟩

/-- C3: each of the five set-producing binary operations leaves the final
states of both operands exactly equal to their initial states and returns a
freshly constructed locked wrapper around a newly computed engine value. -/
theorem C3_binary_ops_preserve_operands {α : Type} [DecidableEq α]
    (a b : threadSafeSet α) :
    a.Union (GoSet.locked b) = some (GoSet.locked ⟨a.S.Union b.S⟩, a, b) ∧
    a.Intersect (GoSet.locked b) = some (GoSet.locked ⟨a.S.Intersect b.S⟩, a, b) ∧
    a.Difference (GoSet.locked b) = some (GoSet.locked ⟨a.S.Difference b.S⟩, a, b) ∧
    a.SymmetricDifference (GoSet.locked b)
      = some (GoSet.locked ⟨a.S.SymmetricDifference b.S⟩, a, b) ∧
    a.CartesianProduct (GoSet.locked b)
      = some (GoSet.locked ⟨a.S.CartesianProduct b.S⟩, a, b) :=
  ⟨rfl, rfl, rfl, rfl, rfl⟩

/-- C4: Add returns true iff the element was absent, makes the element
present, and raises the cardinality by one exactly when the element was
absent; in particular, from the set with elements 1, 2, 3, adding 4 returns
true with cardinality 4 and adding 4 again returns false with cardinality
still 4. -/
theorem C4_add_semantics :
    (∀ (s : threadSafeSet Nat) (e : Nat),
      ((s.Add e).1 = true ↔ s.Contains [e] = false) ∧
      (s.Add e).2.Contains [e] = true ∧
      (s.Add e).2.Cardinality
        = (if s.Contains [e] = true then s.Cardinality else s.Cardinality + 1)) ∧
    ((⟨⟨[1, 2, 3]⟩⟩ : threadSafeSet Nat).Add 4).1 = true ∧
    (((⟨⟨[1, 2, 3]⟩⟩ : threadSafeSet Nat).Add 4).2).Cardinality = 4 ∧
    ((((⟨⟨[1, 2, 3]⟩⟩ : threadSafeSet Nat).Add 4).2).Add 4).1 = false ∧
    (((((⟨⟨[1, 2, 3]⟩⟩ : threadSafeSet Nat).Add 4).2).Add 4).2).Cardinality = 4 := by
  refine ⟨?_, by decide, by decide, by decide, by decide⟩
  intro s e
  simp only [contains_single]
  cases h : s.S.containsElem e with
  | false =>
      have hmem : e ∉ s.S.elems := by
        simpa [threadUnsafeSet.containsElem] using h
      simp [threadSafeSet.Add, threadUnsafeSet.Add, h, hmem, threadSafeSet.Cardinality,
        threadUnsafeSet.Cardinality, threadUnsafeSet.containsElem]
  | true =>
      have hmem : e ∈ s.S.elems := by
        simpa [threadUnsafeSet.containsElem] using h
      simp [threadSafeSet.Add, threadUnsafeSet.Add, h, hmem, threadSafeSet.Cardinality,
        threadUnsafeSet.Cardinality, threadUnsafeSet.containsElem]

/-- C5: IsSuperset and IsProperSuperset on thread-safe operands return
exactly what the operand's IsSubset and IsProperSubset return with the
roles reversed, by pure delegation. -/
theorem C5_superset_delegation {α : Type} [DecidableEq α] (a b : threadSafeSet α) :
    a.IsSuperset (GoSet.locked b) = b.IsSubset (GoSet.locked a) ∧
    a.IsProperSuperset (GoSet.locked b) = b.IsProperSubset (GoSet.locked a) :=
  ⟨rfl, rfl⟩

/-- C6: Pop of an empty thread-safe set returns the none indicator and
leaves the set unchanged; Pop of a non-empty set returns some element that
was contained, lowers the cardinality by exactly one, and the popped
element is no longer contained afterwards. -/
theorem C6_pop_semantics {α : Type} [DecidableEq α]
    (s : threadSafeSet α) (h : s.S.elems.Nodup) :
    (s.Cardinality = 0 → s.Pop = (none, s)) ∧
    (s.Cardinality ≠ 0 → ∃ x s₂, s.Pop = (some x, s₂) ∧
      s.Contains [x] = true ∧ s₂.Cardinality + 1 = s.Cardinality ∧
      s₂.Contains [x] = false) := by
  obtain ⟨⟨l⟩⟩ := s
  cases l with
  | nil => exact ⟨fun _ => rfl, fun hne => absurd rfl hne⟩
  | cons x rest =>
      refine ⟨fun hc => absurd hc (by simp [threadSafeSet.Cardinality,
        threadUnsafeSet.Cardinality]), fun _ => ?_⟩
      refine ⟨x, ⟨⟨rest⟩⟩, rfl, ?_, rfl, ?_⟩
      · simp [contains_single, threadUnsafeSet.containsElem]
      · have hx : x ∉ rest := (List.nodup_cons.mp h).1
        simp [contains_single, threadUnsafeSet.containsElem, hx]

/-- Witness for C6 at the concrete two-element set with elements 1, 2. -/
theorem C6_pop_semantics_witness :
    (⟨⟨[1, 2]⟩⟩ : threadSafeSet Nat).S.elems.Nodup ∧
    (((⟨⟨[1, 2]⟩⟩ : threadSafeSet Nat).Cardinality = 0 →
        (⟨⟨[1, 2]⟩⟩ : threadSafeSet Nat).Pop = (none, ⟨⟨[1, 2]⟩⟩)) ∧
      ((⟨⟨[1, 2]⟩⟩ : threadSafeSet Nat).Cardinality ≠ 0 →
        ∃ x s₂, (⟨⟨[1, 2]⟩⟩ : threadSafeSet Nat).Pop = (some x, s₂) ∧
          (⟨⟨[1, 2]⟩⟩ : threadSafeSet Nat).Contains [x] = true ∧
          s₂.Cardinality + 1 = (⟨⟨[1, 2]⟩⟩ : threadSafeSet Nat).Cardinality ∧
          s₂.Contains [x] = false)) :=
  ⟨by decide, C6_pop_semantics ⟨⟨[1, 2]⟩⟩ (by decide)⟩

/-- C7: PowerSet of a set with n distinct elements is a locked set of
cardinality 2 raised to n; its members are locked wrappers of exactly the
subsets of the receiver: the empty set is a member, some member is Equal to
the receiver, every member is a subset of the receiver, and every subset of
the receiver has an Equal member. -/
theorem C7_powerSet_subsets {α : Type} [DecidableEq α]
    (a : threadSafeSet α) (h : a.S.elems.Nodup) :
    ∃ P : threadSafeSet (GoSet α),
      a.PowerSet = GoSet.locked P ∧
      P.Cardinality = 2 ^ a.Cardinality ∧
      GoSet.locked (⟨⟨[]⟩⟩ : threadSafeSet α) ∈ P.S.elems ∧
      (∃ t : threadSafeSet α, GoSet.locked t ∈ P.S.elems ∧ t.S.Equal a.S = true) ∧
      (∀ g ∈ P.S.elems, ∃ t : threadSafeSet α,
        g = GoSet.locked t ∧ t.S.IsSubset a.S = true) ∧
      (∀ l : List α, l.Nodup → (∀ x ∈ l, x ∈ a.S.elems) →
        ∃ t : threadSafeSet α, GoSet.locked t ∈ P.S.elems ∧ t.S.Equal ⟨l⟩ = true) := by
  obtain ⟨P, hP, hElems⟩ := powerSet_repr a h
  refine ⟨P, hP, ?_, ?_, ?_, ?_, ?_⟩
  · show P.S.elems.length = 2 ^ a.S.elems.length
    rw [hElems, List.length_map, List.length_sublists]
  · rw [hElems]
    exact List.mem_map.mpr ⟨[], List.mem_sublists.mpr (List.nil_sublist _), rfl⟩
  · refine ⟨⟨⟨a.S.elems⟩⟩, ?_, ?_⟩
    · rw [hElems]
      exact List.mem_map.mpr ⟨a.S.elems, List.mem_sublists.mpr (List.Sublist.refl _), rfl⟩
    · exact equal_self a.S
  · intro g hg
    rw [hElems] at hg
    obtain ⟨l, hl, rfl⟩ := List.mem_map.mp hg
    refine ⟨⟨⟨l⟩⟩, rfl, ?_⟩
    rw [isSubset_iff]
    intro x hx
    exact (List.mem_sublists.mp hl).subset hx
  · intro l hlnd hlsub
    refine ⟨⟨⟨a.S.elems.filter (fun y => decide (y ∈ l))⟩⟩, ?_, ?_⟩
    · rw [hElems]
      exact List.mem_map.mpr ⟨_, List.mem_sublists.mpr (List.filter_sublist _), rfl⟩
    · refine equal_true_of_mem_iff (h.filter _) hlnd ?_
      intro x
      simp only [List.mem_filter, decide_eq_true_eq]
      exact ⟨fun hx => hx.2, fun hx => ⟨hlsub x hx, hx⟩⟩

/-- Witness for C7 at the concrete two-element set with elements 1, 2. -/
theorem C7_powerSet_subsets_witness :
    (⟨⟨[1, 2]⟩⟩ : threadSafeSet Nat).S.elems.Nodup ∧
    (∃ P : threadSafeSet (GoSet Nat),
      (⟨⟨[1, 2]⟩⟩ : threadSafeSet Nat).PowerSet = GoSet.locked P ∧
      P.Cardinality = 2 ^ (⟨⟨[1, 2]⟩⟩ : threadSafeSet Nat).Cardinality ∧
      GoSet.locked (⟨⟨[]⟩⟩ : threadSafeSet Nat) ∈ P.S.elems ∧
      (∃ t : threadSafeSet Nat, GoSet.locked t ∈ P.S.elems ∧
        t.S.Equal (⟨⟨[1, 2]⟩⟩ : threadSafeSet Nat).S = true) ∧
      (∀ g ∈ P.S.elems, ∃ t : threadSafeSet Nat,
        g = GoSet.locked t ∧ t.S.IsSubset (⟨⟨[1, 2]⟩⟩ : threadSafeSet Nat).S = true) ∧
      (∀ l : List Nat, l.Nodup →
        (∀ x ∈ l, x ∈ (⟨⟨[1, 2]⟩⟩ : threadSafeSet Nat).S.elems) →
        ∃ t : threadSafeSet Nat, GoSet.locked t ∈ P.S.elems ∧ t.S.Equal ⟨l⟩ = true)) :=
  ⟨by decide, C7_powerSet_subsets ⟨⟨[1, 2]⟩⟩ (by decide)⟩

/-- C8: marshalling a thread-safe set and unmarshalling the bytes into a
fresh thread-safe set yields a set Equal to the original. -/
theorem C8_marshal_round_trip {α : Type} [DecidableEq α]
    (a : threadSafeSet α) (h : a.S.elems.Nodup) :
    (newThreadSafeSet.UnmarshalJSON a.MarshalJSON).Equal (GoSet.locked a) = some true := by
  have hd : a.S.elems.dedup = a.S.elems := h.dedup
  show some (threadUnsafeSet.Equal ⟨a.S.elems.dedup⟩ a.S) = some true
  rw [hd]
  exact congrArg some (equal_self a.S)

/-- Witness for C8 at the concrete set with elements 1, 2, 3. -/
theorem C8_marshal_round_trip_witness :
    (⟨⟨[1, 2, 3]⟩⟩ : threadSafeSet Nat).S.elems.Nodup ∧
    (newThreadSafeSet.UnmarshalJSON
        (⟨⟨[1, 2, 3]⟩⟩ : threadSafeSet Nat).MarshalJSON).Equal
      (GoSet.locked ⟨⟨[1, 2, 3]⟩⟩) = some true :=
  ⟨by decide, C8_marshal_round_trip ⟨⟨[1, 2, 3]⟩⟩ (by decide)⟩

/-- C9: every Set produced by Union, Intersect, Difference,
SymmetricDifference, CartesianProduct, Clone or PowerSet on a thread-safe
set is of the locked variant, and such a result is accepted (no none) as
the operand of further binary operations on a thread-safe receiver. -/
theorem C9_results_locked_variant {α : Type} [DecidableEq α]
    (a b c : threadSafeSet α) (d : threadSafeSet (α × α))
    (q : threadSafeSet (GoSet α)) :
    (a.Union (GoSet.locked b)).map (fun r => r.1.isLockedVariant) = some true ∧
    (a.Intersect (GoSet.locked b)).map (fun r => r.1.isLockedVariant) = some true ∧
    (a.Difference (GoSet.locked b)).map (fun r => r.1.isLockedVariant) = some true ∧
    (a.SymmetricDifference (GoSet.locked b)).map (fun r => r.1.isLockedVariant)
      = some true ∧
    (a.CartesianProduct (GoSet.locked b)).map (fun r => r.1.isLockedVariant)
      = some true ∧
    a.Clone.isLockedVariant = true ∧
    a.PowerSet.isLockedVariant = true ∧
    (a.Union (GoSet.locked b)).map (fun r => (c.IsSubset r.1).isSome) = some true ∧
    (a.Union (GoSet.locked b)).map (fun r => (c.Union r.1).isSome) = some true ∧
    (a.Intersect (GoSet.locked b)).map (fun r => (c.Equal r.1).isSome) = some true ∧
    (a.Difference (GoSet.locked b)).map (fun r => (c.Intersect r.1).isSome)
      = some true ∧
    (a.SymmetricDifference (GoSet.locked b)).map
      (fun r => (c.SymmetricDifference r.1).isSome) = some true ∧
    (a.CartesianProduct (GoSet.locked b)).map (fun r => (d.IsSubset r.1).isSome)
      = some true ∧
    (c.IsSubset a.Clone).isSome = true ∧
    (c.Difference a.Clone).isSome = true ∧
    (q.IsSubset a.PowerSet).isSome = true ∧
    (q.CartesianProduct a.PowerSet).isSome = true :=
  ⟨rfl, rfl, rfl, rfl, rfl, rfl, rfl, rfl, rfl, rfl, rfl, rfl, rfl, rfl, rfl, rfl, rfl⟩

/-- C10: ToSlice returns a slice whose length is the cardinality, whose
members are exactly the contained elements, and in which each contained
element occurs exactly once. -/
theorem C10_toSlice_exact {α : Type} [DecidableEq α]
    (s : threadSafeSet α) (h : s.S.elems.Nodup) :
    s.ToSlice.length = s.Cardinality ∧
    (∀ x, x ∈ s.ToSlice ↔ s.Contains [x] = true) ∧
    (∀ x ∈ s.ToSlice, s.ToSlice.count x = 1) := by
  refine ⟨rfl, ?_, ?_⟩
  · intro x
    simp [threadSafeSet.ToSlice, contains_single, threadUnsafeSet.containsElem]
  · intro x hx
    exact List.count_eq_one_of_mem h hx

/-- Witness for C10 at the concrete set with elements 5, 7. -/
theorem C10_toSlice_exact_witness :
    (⟨⟨[5, 7]⟩⟩ : threadSafeSet Nat).S.elems.Nodup ∧
    ((⟨⟨[5, 7]⟩⟩ : threadSafeSet Nat).ToSlice.length
        = (⟨⟨[5, 7]⟩⟩ : threadSafeSet Nat).Cardinality ∧
      (∀ x, x ∈ (⟨⟨[5, 7]⟩⟩ : threadSafeSet Nat).ToSlice ↔
        (⟨⟨[5, 7]⟩⟩ : threadSafeSet Nat).Contains [x] = true) ∧
      (∀ x ∈ (⟨⟨[5, 7]⟩⟩ : threadSafeSet Nat).ToSlice,
        (⟨⟨[5, 7]⟩⟩ : threadSafeSet Nat).ToSlice.count x = 1)) :=
  ⟨by decide, C10_toSlice_exact ⟨⟨[5, 7]⟩⟩ (by decide)⟩

end GolangSet
